import Mathlib

/-!
Shallow embedding of the CSUN location-quiz script (`script.js`) and proofs
of its specified properties.

Modelling conventions:
* JS numbers that are always finite in this program (bounding-box edges,
  elapsed seconds, parsed best times) are rationals (`ℚ`) or naturals (`ℕ`).
* A guess point's coordinate is a `JSNum := Option ℚ`, where `none` models
  `NaN` (and `undefined`, which relational operators coerce to `NaN`):
  every JS comparison involving `NaN` is false.
* `localStorage` is a single slot `Option String` (the one key `BEST_KEY`).
* The JS built-ins `String(n)` (for a natural number) and
  `Number(s)`/`Number.isFinite` (on the digit strings reachable here) are
  modelled by explicit decimal conversion via `Nat.digits`.
-/

/-- A JS number that may be `NaN`/`undefined` (modelled as `none`). -/
def JSNum : Type := Option ℚ

/-- JS `a <= b` where `a` may be `NaN` and `b` is a finite number:
any comparison with `NaN` is false. -/
def jsLe (a : JSNum) (b : ℚ) : Bool :=
  match a with
  | some x => decide (x ≤ b)
  | none => false

/-- JS `a >= b` where `a` may be `NaN` and `b` is a finite number. -/
def jsGe (a : JSNum) (b : ℚ) : Bool :=
  match a with
  | some x => decide (b ≤ x)
  | none => false

/-- A bounding box in degrees; the four edges in the program are finite
literals, so they are plain rationals. Mirrors the `bounds` objects of
`script.js`. -/
structure Bounds where
  north : ℚ
  south : ℚ
  east : ℚ
  west : ℚ
deriving DecidableEq, Repr

/-- A user guess point (`latLng`); coordinates may be `NaN`/`undefined`. -/
structure Point where
  lat : JSNum
  lng : JSNum

/-- One quiz location: a display name and its answer rectangle. -/
structure Location where
  name : String
  bounds : Bounds

/-- `TOTAL_QUESTIONS` from `script.js`. -/
def TOTAL_QUESTIONS : ℕ := 5

/-- The fixed `LOCATIONS` list from `script.js`. -/
def LOCATIONS : List Location :=
  [ { name := "Black House",
      bounds := { north := 34.244278, south := 34.244069,
                  east := -118.533368, west := -118.533626 } },
    { name := "Chaparral Hall",
      bounds := { north := 34.238634, south := 34.237832,
                  east := -118.526679, west := -118.527306 } },
    { name := "Matador Track Stadium",
      bounds := { north := 34.247868, south := 34.246043,
                  east := -118.525570, west := -118.52730 } },
    { name := "Sierra Hall",
      bounds := { north := 34.238561, south := 34.238056,
                  east := -118.529978, west := -118.531517 } },
    { name := "Bookstein Hall",
      bounds := { north := 34.242471, south := 34.241471,
                  east := -118.529919, west := -118.531159 } } ]

/-- `normalizeBounds` from `script.js`: reorders edges so that
`north = max`, `south = min`, `east = max`, `west = min`. -/
def normalizeBounds (b : Bounds) : Bounds :=
  { north := max b.north b.south
    south := min b.north b.south
    east := max b.east b.west
    west := min b.east b.west }

/-- `pointInBounds` from `script.js`: normalize the box, then test the four
inclusive edge comparisons (each is false when a coordinate is `NaN`). -/
def pointInBounds (latLng : Point) (b : Bounds) : Bool :=
  let bb := normalizeBounds b
  jsLe latLng.lat bb.north &&
  jsGe latLng.lat bb.south &&
  jsLe latLng.lng bb.east &&
  jsGe latLng.lng bb.west

/-- The mutable quiz fields of `state` in `script.js` (question index and
number of correct answers; the timer fields are handled separately). -/
structure QuizState where
  index : ℕ
  correct : ℕ
deriving DecidableEq, Repr

/-- The quiz-state effect of `resetGame` in `script.js`:
`state.index = 0; state.correct = 0`. -/
def resetGame : QuizState := { index := 0, correct := 0 }

/-- The quiz-state effect of `handleAnswer(latLng)` in `script.js`:
look up `LOCATIONS[state.index]`; if absent, return unchanged; otherwise
bump `correct` when the point is in bounds and advance `index`. -/
def handleAnswer (s : QuizState) (latLng : Point) : QuizState :=
  match LOCATIONS[s.index]? with
  | none => s
  | some loc =>
    let isCorrect := pointInBounds latLng loc.bounds
    { index := s.index + 1
      correct := s.correct + (if isCorrect then 1 else 0) }

/-- Whether the round has finished: `state.index >= TOTAL_QUESTIONS`
(the condition on which `handleAnswer` calls `finishGame`). -/
def gameFinished (s : QuizState) : Bool :=
  TOTAL_QUESTIONS ≤ s.index

/-- A whole sequence of guesses submitted in order. -/
def runGuesses (s : QuizState) (guesses : List Point) : QuizState :=
  guesses.foldl handleAnswer s

/-- An external event hitting the quiz state machine. -/
inductive QuizOp where
  | reset : QuizOp
  | guess (latLng : Point) : QuizOp

/-- Apply one event to the quiz state. -/
def applyOp (s : QuizState) : QuizOp → QuizState
  | QuizOp.reset => resetGame
  | QuizOp.guess p => handleAnswer s p

/-- The quiz-state invariant from the spec: `0 <= correct <= index <= N`
(the lower bound is by the type `ℕ`). -/
def QuizInv (s : QuizState) : Prop :=
  s.correct ≤ s.index ∧ s.index ≤ TOTAL_QUESTIONS

/-- Little-endian decimal digits of `n`, computed with explicit fuel so the
kernel can evaluate it; `decimalDigits n n` agrees with `Nat.digits 10 n`
(proved below). -/
def decimalDigits : ℕ → ℕ → List ℕ
  | 0, _ => []
  | fuel + 1, n => if n = 0 then [] else n % 10 :: decimalDigits fuel (n / 10)

/-- JS `String(n)` for a natural number `n`: its decimal digit string. -/
def jsStringOfNat (n : ℕ) : String :=
  if n = 0 then "0"
  else String.mk (((decimalDigits n n).map Nat.digitChar).reverse)

/-- JS `Number(s)` followed by the `Number.isFinite` filter, on the strings
reachable through `getBestSeconds`: the empty string coerces to `0`, a
nonempty all-digit string to its decimal value, and anything else here is
modelled as `NaN` (hence `none`). -/
def jsNumberFinite (s : String) : Option ℚ :=
  let cs := s.data
  if cs = [] then some 0
  else if cs.all Char.isDigit then
    some ((Nat.ofDigits 10 ((cs.map fun c => c.toNat - 48).reverse) : ℕ) : ℚ)
  else none

/-- `getBestSeconds` from `script.js`: read the slot; a missing or empty
(`!raw`) value is `null`; otherwise parse and keep only finite numbers. -/
def getBestSeconds (store : Option String) : Option ℚ :=
  match store with
  | none => none
  | some raw =>
    if raw = "" then none
    else
      match jsNumberFinite raw with
      | some n => some n
      | none => none

/-- `setBestSeconds(seconds)` from `script.js`: store `String(seconds)`. -/
def setBestSeconds (seconds : ℕ) : Option String :=
  some (jsStringOfNat seconds)

/-- The persistence effect of `finishGame` in `script.js`, with the round's
elapsed whole seconds passed in: write the new time iff there is no stored
best or the new time is strictly smaller. -/
def finishGame (store : Option String) (seconds : ℕ) : Option String :=
  match getBestSeconds store with
  | none => setBestSeconds seconds
  | some best =>
    if (seconds : ℚ) < best then setBestSeconds seconds else store

/-- JS `str.padStart(n, c)`: left-pad to length `n` (no-op if already as
long, via truncated subtraction). -/
def padStart (s : String) (n : ℕ) (c : Char) : String :=
  String.mk (List.replicate (n - s.length) c) ++ s

/-- `formatTime(totalSeconds)` from `script.js` (its argument is the floored
elapsed seconds, a natural number). -/
def formatTime (totalSeconds : ℕ) : String :=
  padStart (jsStringOfNat (totalSeconds / 60)) 2 '0' ++ ":" ++
  padStart (jsStringOfNat (totalSeconds % 60)) 2 '0'

/-! ### Helper lemmas about decimal strings -/

theorem decimalDigits_eq (fuel : ℕ) :
    ∀ n, n ≤ fuel → decimalDigits fuel n = Nat.digits 10 n := by
  induction fuel with
  | zero =>
    intro n hn
    interval_cases n
    simp [decimalDigits]
  | succ fuel ih =>
    intro n hn
    rcases Nat.eq_zero_or_pos n with h0 | hpos
    · subst h0; simp [decimalDigits]
    · rw [decimalDigits, if_neg (Nat.pos_iff_ne_zero.mp hpos),
        Nat.digits_def' (by norm_num : 1 < 10) hpos, ih]
      exact Nat.le_of_lt_succ
        (Nat.lt_of_lt_of_le (Nat.div_lt_self hpos (by norm_num)) hn)

theorem jsStringOfNat_eq (n : ℕ) :
    jsStringOfNat n =
      if n = 0 then "0"
      else String.mk (((Nat.digits 10 n).map Nat.digitChar).reverse) := by
  unfold jsStringOfNat
  rw [decimalDigits_eq n n le_rfl]

theorem digitChar_isDigit {d : ℕ} (hd : d < 10) :
    (Nat.digitChar d).isDigit = true := by
  interval_cases d <;> decide

theorem digitChar_toNat {d : ℕ} (hd : d < 10) :
    (Nat.digitChar d).toNat - 48 = d := by
  interval_cases d <;> decide

theorem ofDigits_replicate_zero (k : ℕ) :
    Nat.ofDigits 10 (List.replicate k 0) = 0 := by
  induction k with
  | zero => simp
  | succ k ih => simp [List.replicate_succ, Nat.ofDigits_cons, ih]

theorem jsNumberFinite_zeros_digits (k n : ℕ) (h : k ≠ 0 ∨ n ≠ 0) :
    jsNumberFinite
      (String.mk (List.replicate k '0' ++
        ((Nat.digits 10 n).map Nat.digitChar).reverse)) = some (n : ℚ) := by
  have hlt : ∀ d ∈ Nat.digits 10 n, d < 10 := fun d hd =>
    Nat.digits_lt_base (by norm_num) hd
  have hne : List.replicate k '0' ++
      ((Nat.digits 10 n).map Nat.digitChar).reverse ≠ [] := by
    intro hcontr
    rcases List.append_eq_nil.mp hcontr with ⟨h1, h2⟩
    rcases h with hk | hn
    · exact hk (by simpa using congrArg List.length h1)
    · exact (Nat.digits_ne_nil_iff_ne_zero.mpr hn)
        (List.map_eq_nil_iff.mp (List.reverse_eq_nil_iff.mp h2))
  have hall : (List.replicate k '0' ++
      ((Nat.digits 10 n).map Nat.digitChar).reverse).all Char.isDigit = true := by
    rw [List.all_eq_true]
    intro c hc
    rcases List.mem_append.mp hc with hc | hc
    · rw [(List.eq_of_mem_replicate hc)]; decide
    · rcases List.mem_map.mp (List.mem_reverse.mp hc) with ⟨d, hd, rfl⟩
      exact digitChar_isDigit (hlt d hd)
  have hmap : (List.replicate k '0' ++
        ((Nat.digits 10 n).map Nat.digitChar).reverse).map
          (fun c => c.toNat - 48)
      = List.replicate k 0 ++ (Nat.digits 10 n).reverse := by
    have hmapd : (Nat.digits 10 n).map
        ((fun c : Char => c.toNat - 48) ∘ Nat.digitChar) = Nat.digits 10 n := by
      have h1 : ∀ d ∈ Nat.digits 10 n,
          ((fun c : Char => c.toNat - 48) ∘ Nat.digitChar) d = id d :=
        fun d hd => digitChar_toNat (hlt d hd)
      rw [List.map_congr_left h1, List.map_id]
    have hzero : (Char.toNat '0') - 48 = 0 := rfl
    rw [List.map_append, List.map_replicate, List.map_reverse, List.map_map,
      hmapd, hzero]
  have hval : Nat.ofDigits 10
      (((List.replicate k '0' ++
        ((Nat.digits 10 n).map Nat.digitChar).reverse).map
          (fun c => c.toNat - 48)).reverse) = n := by
    rw [hmap, List.reverse_append, List.reverse_reverse, List.reverse_replicate,
      Nat.ofDigits_append, Nat.ofDigits_digits, ofDigits_replicate_zero]
    ring
  show jsNumberFinite _ = _
  unfold jsNumberFinite
  rw [if_neg hne, if_pos hall, hval]

theorem jsNumberFinite_pad_jsStringOfNat (k n : ℕ) :
    jsNumberFinite (String.mk (List.replicate k '0') ++ jsStringOfNat n) =
      some (n : ℚ) := by
  rcases Nat.eq_zero_or_pos n with rfl | hpos
  · have hstr : String.mk (List.replicate k '0') ++ jsStringOfNat 0
        = String.mk (List.replicate (k + 1) '0' ++
            ((Nat.digits 10 0).map Nat.digitChar).reverse) := by
      show String.mk (List.replicate k '0' ++ ['0']) = _
      simp [List.replicate_succ']
    rw [hstr]
    exact jsNumberFinite_zeros_digits (k + 1) 0 (Or.inl (Nat.succ_ne_zero k))
  · have hn : n ≠ 0 := Nat.pos_iff_ne_zero.mp hpos
    rw [jsStringOfNat_eq, if_neg hn]
    exact jsNumberFinite_zeros_digits k n (Or.inr hn)

theorem jsNumberFinite_jsStringOfNat (n : ℕ) :
    jsNumberFinite (jsStringOfNat n) = some (n : ℚ) :=
  jsNumberFinite_pad_jsStringOfNat 0 n

theorem jsStringOfNat_ne_empty (n : ℕ) : jsStringOfNat n ≠ "" := by
  rw [jsStringOfNat_eq]
  split
  · decide
  · intro hcontr
    have h2 : ((Nat.digits 10 n).map Nat.digitChar).reverse = [] :=
      congrArg String.data hcontr
    exact (Nat.digits_ne_nil_iff_ne_zero.mpr (by assumption))
      (List.map_eq_nil_iff.mp (List.reverse_eq_nil_iff.mp h2))

theorem jsStringOfNat_length_le {n : ℕ} (h : n < 100) :
    (jsStringOfNat n).length ≤ 2 := by
  rw [jsStringOfNat_eq]
  split
  · decide
  · show (((Nat.digits 10 n).map Nat.digitChar).reverse).length ≤ 2
    rw [List.length_reverse, List.length_map,
      Nat.digits_len 10 n (by norm_num) (by assumption)]
    have := Nat.log_lt_of_lt_pow (by assumption) (show n < 10 ^ 2 by omega)
    omega

theorem padStart_length (s : String) (c : Char) :
    (padStart s 2 c).length = (2 - s.length) + s.length := by
  show (String.mk (List.replicate (2 - s.length) c) ++ s).length = _
  rw [String.length_append]
  simp

theorem padStart_eq_mk (s : String) (c : Char) :
    padStart s 2 c = String.mk (List.replicate (2 - s.length) c) ++ s := rfl

/-! ### Helper lemmas about the quiz state machine -/

theorem LOCATIONS_length : LOCATIONS.length = 5 := rfl

theorem runGuesses_spec (gs : List Point) :
    ∀ i c : ℕ, i + gs.length ≤ 5 →
    runGuesses ⟨i, c⟩ gs =
      ⟨i + gs.length,
       c + (List.zip gs (LOCATIONS.drop i)).countP
         (fun gl => pointInBounds gl.1 gl.2.bounds)⟩ := by
  induction gs with
  | nil =>
    intro i c _
    simp [runGuesses]
  | cons g gs ih =>
    intro i c h
    have hi : i < LOCATIONS.length := by
      rw [LOCATIONS_length]; simp at h; omega
    have hstep : handleAnswer ⟨i, c⟩ g =
        ⟨i + 1, c + (if pointInBounds g (LOCATIONS[i]).bounds then 1 else 0)⟩ := by
      simp [handleAnswer, List.getElem?_eq_getElem hi]
    have hdrop : LOCATIONS.drop i = LOCATIONS[i] :: LOCATIONS.drop (i + 1) :=
      List.drop_eq_getElem_cons hi
    have hrun : runGuesses ⟨i, c⟩ (g :: gs) =
        runGuesses (handleAnswer ⟨i, c⟩ g) gs := rfl
    rw [hrun, hstep, ih (i + 1) _ (by simp at h ⊢; omega),
      hdrop, List.zip_cons_cons, List.countP_cons]
    have harith : ∀ x y : ℕ, (⟨i + 1 + gs.length, c + x + y⟩ : QuizState) =
        ⟨i + (g :: gs).length, c + (y + x)⟩ := by
      intro x y
      simp [QuizState.mk.injEq]
      omega
    exact harith _ _

/-! ### Claim theorems: geometry -/

/-- C2: `pointInBounds` normalizes the box and then classifies a point as
inside iff `south <= lat <= north` and `west <= lng <= east`, with all four
edge comparisons inclusive, so a point exactly on a post-normalization edge
is inside; on the spec's scenario box `(7,-102)` is inside and `(7,-99)` is
outside, and a point exactly on the north/east corner is inside. -/
theorem pointInBounds_iff_within_normalized :
    (∀ (lat lng : ℚ) (b : Bounds),
      pointInBounds ⟨some lat, some lng⟩ b = true ↔
        ((normalizeBounds b).south ≤ lat ∧ lat ≤ (normalizeBounds b).north ∧
         (normalizeBounds b).west ≤ lng ∧ lng ≤ (normalizeBounds b).east)) ∧
    pointInBounds ⟨some 7, some (-102)⟩ ⟨10, 5, -100, -105⟩ = true ∧
    pointInBounds ⟨some 7, some (-99)⟩ ⟨10, 5, -100, -105⟩ = false ∧
    pointInBounds ⟨some 10, some (-100)⟩ ⟨10, 5, -100, -105⟩ = true := by
  refine ⟨fun lat lng b => ?_, by decide, by decide, by decide⟩
  simp only [pointInBounds, jsLe, jsGe, Bool.and_eq_true, decide_eq_true_eq]
  tauto

/-- C7: `normalizeBounds` always returns an ordered box (`north >= south`
and `east >= west`) and is idempotent. -/
theorem normalizeBounds_ordered_idempotent (b : Bounds) :
    (normalizeBounds b).south ≤ (normalizeBounds b).north ∧
    (normalizeBounds b).west ≤ (normalizeBounds b).east ∧
    normalizeBounds (normalizeBounds b) = normalizeBounds b := by
  have h1 : ∀ x y : ℚ, max (max x y) (min x y) = max x y :=
    fun x y => max_eq_left min_le_max
  have h2 : ∀ x y : ℚ, min (max x y) (min x y) = min x y :=
    fun x y => min_eq_right min_le_max
  refine ⟨min_le_max, min_le_max, ?_⟩
  simp [normalizeBounds, h1, h2]

/-- C8: `pointInBounds` gives the same verdict when the box's north/south
or east/west values are swapped (normalization absorbs the swap), and the
reversed scenario box still contains `(7,-102)`. -/
theorem pointInBounds_swap_invariant :
    (∀ (p : Point) (b : Bounds),
      pointInBounds p ⟨b.south, b.north, b.east, b.west⟩ = pointInBounds p b ∧
      pointInBounds p ⟨b.north, b.south, b.west, b.east⟩ = pointInBounds p b) ∧
    pointInBounds ⟨some 7, some (-102)⟩ ⟨5, 10, -105, -100⟩ = true := by
  refine ⟨fun p b => ⟨?_, ?_⟩, by decide⟩ <;>
    simp [pointInBounds, normalizeBounds, max_comm, min_comm]

/-- C9: `pointInBounds` is a total function with no error conditions, and a
point whose latitude or longitude is `undefined`/`NaN` (modelled `none`) is
classified as not contained rather than throwing. -/
theorem pointInBounds_nan_false (b : Bounds) (p : Point)
    (h : p.lat = none ∨ p.lng = none) : pointInBounds p b = false := by
  rcases p with ⟨plat, plng⟩
  rcases h with h | h <;> simp only at h <;> subst h <;>
    simp [pointInBounds, jsLe, jsGe]

/-- Witness for C9 at a concrete `NaN` latitude. -/
theorem pointInBounds_nan_false_witness :
    ((⟨none, some 0⟩ : Point).lat = none ∨
      (⟨none, some 0⟩ : Point).lng = none) ∧
    pointInBounds ⟨none, some 0⟩ ⟨1, 0, 1, 0⟩ = false :=
  ⟨Or.inl rfl, pointInBounds_nan_false ⟨1, 0, 1, 0⟩ ⟨none, some 0⟩ (Or.inl rfl)⟩

/-! ### Claim theorems: quiz state machine -/

/-- C1: after a reset, a round of exactly 5 guesses ends with `correct`
equal to the number of submitted points lying in the bounds of the location
of the question at which each was submitted, and `0 <= correct <= 5`. -/
theorem correct_counts_contained_guesses (gs : List Point)
    (h : gs.length = 5) :
    (runGuesses resetGame gs).correct =
      (List.zip gs LOCATIONS).countP
        (fun gl => pointInBounds gl.1 gl.2.bounds) ∧
    (runGuesses resetGame gs).correct ≤ 5 := by
  have hrun := runGuesses_spec gs 0 0 (by omega)
  rw [show resetGame = (⟨0, 0⟩ : QuizState) from rfl, hrun]
  constructor
  · simp
  · have hle := List.countP_le_length
      (fun gl : Point × Location => pointInBounds gl.1 gl.2.bounds)
      (l := List.zip gs LOCATIONS)
    have hlen : (List.zip gs LOCATIONS).length = 5 := by
      rw [List.length_zip, h, LOCATIONS_length]
      simp
    simp only [List.drop_zero]
    omega

/-- Witness for C1: five guesses at the origin. -/
theorem correct_counts_contained_guesses_witness :
    ([⟨some 0, some 0⟩, ⟨some 0, some 0⟩, ⟨some 0, some 0⟩,
       ⟨some 0, some 0⟩, ⟨some 0, some 0⟩] : List Point).length = 5 ∧
    ((runGuesses resetGame
        [⟨some 0, some 0⟩, ⟨some 0, some 0⟩, ⟨some 0, some 0⟩,
         ⟨some 0, some 0⟩, ⟨some 0, some 0⟩]).correct =
      (List.zip
        ([⟨some 0, some 0⟩, ⟨some 0, some 0⟩, ⟨some 0, some 0⟩,
          ⟨some 0, some 0⟩, ⟨some 0, some 0⟩] : List Point)
        LOCATIONS).countP (fun gl => pointInBounds gl.1 gl.2.bounds) ∧
     (runGuesses resetGame
        [⟨some 0, some 0⟩, ⟨some 0, some 0⟩, ⟨some 0, some 0⟩,
         ⟨some 0, some 0⟩, ⟨some 0, some 0⟩]).correct ≤ 5) :=
  ⟨rfl, correct_counts_contained_guesses _ rfl⟩

theorem handleAnswer_done (s : QuizState) (hs : s.index = 5) (p : Point) :
    handleAnswer s p = s := by
  have hnone : LOCATIONS[s.index]? = none := by rw [hs]; rfl
  simp [handleAnswer, hnone]

theorem runGuesses_done (s : QuizState) (hs : s.index = 5) :
    ∀ more : List Point, runGuesses s more = s := by
  intro more
  induction more with
  | nil => rfl
  | cons m more ih =>
    show runGuesses (handleAnswer s m) more = s
    rw [handleAnswer_done s hs m, ih]

/-- C5: after exactly 5 guesses from a reset the machine is in the finished
state (`index = 5`), and any further guesses before the next reset leave the
whole quiz state (both `correct` and `index`) unchanged; the handler is a
total function, so no crash. -/
theorem finished_after_five_guesses (gs : List Point) (h : gs.length = 5) :
    gameFinished (runGuesses resetGame gs) = true ∧
    (runGuesses resetGame gs).index = 5 ∧
    (∀ p : Point,
      handleAnswer (runGuesses resetGame gs) p = runGuesses resetGame gs) ∧
    (∀ more : List Point,
      runGuesses (runGuesses resetGame gs) more = runGuesses resetGame gs) := by
  have hrun := runGuesses_spec gs 0 0 (by omega)
  have hidx : (runGuesses resetGame gs).index = 5 := by
    rw [show resetGame = (⟨0, 0⟩ : QuizState) from rfl, hrun]
    simp [h]
  refine ⟨?_, hidx, fun p => handleAnswer_done _ hidx p,
    fun more => runGuesses_done _ hidx more⟩
  simp [gameFinished, hidx, TOTAL_QUESTIONS]

/-- Witness for C5: five guesses at the origin, then one more at `(1,1)`. -/
theorem finished_after_five_guesses_witness :
    ([⟨some 1, some 1⟩, ⟨some 0, some 0⟩, ⟨some 0, some 0⟩,
       ⟨some 0, some 0⟩, ⟨some 0, some 0⟩] : List Point).length = 5 ∧
    gameFinished (runGuesses resetGame
      [⟨some 1, some 1⟩, ⟨some 0, some 0⟩, ⟨some 0, some 0⟩,
       ⟨some 0, some 0⟩, ⟨some 0, some 0⟩]) = true :=
  ⟨rfl, (finished_after_five_guesses
    [⟨some 1, some 1⟩, ⟨some 0, some 0⟩, ⟨some 0, some 0⟩,
     ⟨some 0, some 0⟩, ⟨some 0, some 0⟩] rfl).1⟩

theorem quizInv_applyOp (s : QuizState) (op : QuizOp) (h : QuizInv s) :
    QuizInv (applyOp s op) := by
  cases op with
  | reset =>
    show QuizInv resetGame
    exact ⟨Nat.le_refl 0, by decide⟩
  | guess p =>
    show QuizInv (handleAnswer s p)
    cases hl : LOCATIONS[s.index]? with
    | none => simpa [handleAnswer, hl] using h
    | some loc =>
      have hi : s.index < 5 := by
        rcases List.getElem?_eq_some.mp hl with ⟨hlt, _⟩
        rwa [LOCATIONS_length] at hlt
      rcases h with ⟨h1, _⟩
      have hgoal : QuizInv ⟨s.index + 1,
          s.correct + (if pointInBounds p loc.bounds then 1 else 0)⟩ := by
        cases hpb : pointInBounds p loc.bounds <;>
          simp [QuizInv, TOTAL_QUESTIONS] <;> omega
      simpa [handleAnswer, hl] using hgoal

/-- C6: `0 <= correct <= index <= 5` holds after a reset and is preserved by
every operation of the state machine (reset or guess), hence holds along any
interleaving of operations started from a reset. -/
theorem quiz_invariant_preserved :
    QuizInv resetGame ∧
    (∀ (s : QuizState) (op : QuizOp), QuizInv s → QuizInv (applyOp s op)) ∧
    (∀ ops : List QuizOp, QuizInv (ops.foldl applyOp resetGame)) := by
  have hres : QuizInv resetGame := ⟨Nat.le_refl 0, by simp [resetGame, TOTAL_QUESTIONS]⟩
  have hfold : ∀ (ops : List QuizOp) (s : QuizState), QuizInv s →
      QuizInv (ops.foldl applyOp s) := by
    intro ops
    induction ops with
    | nil => exact fun s hs => hs
    | cons op ops ih => exact fun s hs => ih (applyOp s op) (quizInv_applyOp s op hs)
  exact ⟨hres, quizInv_applyOp, fun ops => hfold ops resetGame hres⟩

/-- Witness for C6: one preservation step from a concrete mid-round state. -/
theorem quiz_invariant_preserved_witness :
    QuizInv ⟨3, 2⟩ ∧
    QuizInv (applyOp ⟨3, 2⟩ (QuizOp.guess ⟨some 0, some 0⟩)) :=
  ⟨⟨by decide, by decide⟩,
   quiz_invariant_preserved.2.1 ⟨3, 2⟩ (QuizOp.guess ⟨some 0, some 0⟩)
     ⟨by decide, by decide⟩⟩

/-! ### Claim theorems: best time and timer -/

/-- C3: the stored best time is overwritten with the run's elapsed seconds
iff no best exists yet or the elapsed time is strictly smaller; an equal or
greater elapsed time leaves the store unchanged, and the first-ever finish
(empty store) always writes. -/
theorem bestTime_update_rule (store : Option String) (seconds : ℕ) :
    (getBestSeconds store = none →
      finishGame store seconds = setBestSeconds seconds) ∧
    (∀ best : ℚ, getBestSeconds store = some best →
      ((seconds : ℚ) < best →
        finishGame store seconds = setBestSeconds seconds) ∧
      (best ≤ (seconds : ℚ) → finishGame store seconds = store)) ∧
    finishGame none seconds = setBestSeconds seconds := by
  refine ⟨fun h => ?_, fun best h => ⟨fun hlt => ?_, fun hge => ?_⟩, ?_⟩
  · simp [finishGame, h]
  · simp [finishGame, h, hlt]
  · simp [finishGame, h, not_lt.mpr hge]
  · simp [finishGame, getBestSeconds]

/-- Witness for C3: a stored best of 10 seconds is beaten by 5 but not
replaced by an equal 10. -/
theorem bestTime_update_rule_witness :
    finishGame (some "10") 5 = setBestSeconds 5 ∧
    finishGame (some "10") 10 = some "10" :=
  ⟨((bestTime_update_rule (some "10") 5).2.1 10 (by decide)).1 (by decide),
   ((bestTime_update_rule (some "10") 10).2.1 10 (by decide)).2 (by decide)⟩

/-- C10: writing the best time and reading it back round-trips: after
`setBestSeconds s` the stored decimal string parses back to `s` (including
`s = 0`). -/
theorem getBest_after_setBest (s : ℕ) :
    getBestSeconds (setBestSeconds s) = some (s : ℚ) := by
  show (if jsStringOfNat s = "" then none
    else match jsNumberFinite (jsStringOfNat s) with
      | some n => some n
      | none => none) = some (s : ℚ)
  rw [if_neg (jsStringOfNat_ne_empty s), jsNumberFinite_jsStringOfNat]

theorem jsStringOfNat_length_pos (n : ℕ) : 1 ≤ (jsStringOfNat n).length := by
  rw [jsStringOfNat_eq]
  split
  · decide
  · show 1 ≤ (((Nat.digits 10 n).map Nat.digitChar).reverse).length
    rw [List.length_reverse, List.length_map]
    exact List.length_pos.mpr (Nat.digits_ne_nil_iff_ne_zero.mpr (by assumption))

/-- C4: `formatTime` renders `MM:SS`: the minutes field is `seconds / 60`
and the seconds field is `seconds % 60` (so seconds wrap into minutes at
60), both zero-padded to at least two digits, with the seconds field exactly
two digits; in particular `formatTime 65 = "01:05"`,
`formatTime 0 = "00:00"` and `formatTime 599 = "09:59"`. -/
theorem formatTime_renders_mm_ss :
    formatTime 65 = "01:05" ∧ formatTime 0 = "00:00" ∧
    formatTime 599 = "09:59" ∧
    ∀ s : ℕ, ∃ mm ss : String,
      formatTime s = mm ++ ":" ++ ss ∧ 2 ≤ mm.length ∧ ss.length = 2 ∧
      jsNumberFinite mm = some ((s / 60 : ℕ) : ℚ) ∧
      jsNumberFinite ss = some ((s % 60 : ℕ) : ℚ) ∧ s % 60 < 60 := by
  refine ⟨by decide, by decide, by decide, fun s => ?_⟩
  refine ⟨padStart (jsStringOfNat (s / 60)) 2 '0',
          padStart (jsStringOfNat (s % 60)) 2 '0', rfl, ?_, ?_, ?_, ?_, ?_⟩
  · rw [padStart_length]
    omega
  · rw [padStart_length]
    have h1 := jsStringOfNat_length_pos (s % 60)
    have h2 : (jsStringOfNat (s % 60)).length ≤ 2 :=
      jsStringOfNat_length_le (by omega)
    omega
  · rw [padStart_eq_mk]
    exact jsNumberFinite_pad_jsStringOfNat _ _
  · rw [padStart_eq_mk]
    exact jsNumberFinite_pad_jsStringOfNat _ _
  · omega
